import Mathlib

/-!
# Verification development for the QCA-style simulation driver

Source: `src/experiments/qcastyle/qcastyle_simulation.cpp` (function `main`).

The driver discovers gate layouts in a directory, attaches a truth table to
each of them by gate type, builds two simulation configurations ("old" and
"new"), runs the critical-temperature simulation and two operational-domain
explorations (contour tracing, flood fill) per gate, and records one row of
statistics per gate.

Conventions of the embedding:
* `std::string` is `List Char`; `size_t` positions are `Nat` with
  `npos = 2^64 - 1`, and the single wrapping addition of the source is written
  with an explicit `% 2^64`.
* `uint64_t` counters are `Nat`.
* A finite `double` is the rational it denotes, and every conversion or
  operation on doubles that the claims compute with is rounded to binary64 by
  `round_double` (round to nearest, ties to even, 53-bit significand): the
  conversion and division of the two counters, and the literals of the sweep
  dimensions.  The simulation parameters of lines 84 and 90 are only stored and
  compared, and are carried as their decimal literals.  The one place where a
  `double` can leave the finite range (the division of the two counters) is
  modelled with the explicit result type `Double`.
-/

namespace QcaStyle

/-! ## Statistics and the operational fraction (source lines 149-184) -/

/-- Rounding of a rational to the nearest integer, ties to the even one. -/
def round_ties_even (x : ℚ) : ℤ :=
  if x - ⌊x⌋ < 1 / 2 then ⌊x⌋
  else if 1 / 2 < x - ⌊x⌋ then ⌊x⌋ + 1
  else if ⌊x⌋ % 2 = 0 then ⌊x⌋
  else ⌊x⌋ + 1

/-- Rounding to binary64 in the default rounding mode (nearest, ties to
even): with `e` the binary exponent of `x`, the value is rounded to a
multiple of `2^(e-52)`, so that the significand has 53 bits.  The exponent
range of binary64 is not modelled: every value rounded in this file lies
between `2^-64` and `2^64`, far inside the normal range. -/
def round_double (x : ℚ) : ℚ :=
  if x = 0 then 0
  else (round_ties_even (x / 2 ^ (Int.log 2 |x| - 52)) : ℚ) * 2 ^ (Int.log 2 |x| - 52)

/-- Outcome of the binary64 division of two converted unsigned counters: a
finite double, carried as the rational it denotes, or one of the two special
results that a zero divisor produces. -/
inductive Double where
  | nan
  | posInf
  | finite (q : ℚ)
deriving DecidableEq

/-- The counters of `operational_domain_stats` that the driver reads
(`time_total` is a wall-clock duration and is left out). -/
structure operational_domain_stats where
  num_simulator_invocations : Nat
  num_evaluated_parameter_combinations : Nat
  num_operational_parameter_combinations : Nat
deriving DecidableEq

/-- The value-initialised record `operational_domain_stats{}` (lines 149-150). -/
def operational_domain_stats.init : operational_domain_stats :=
  { num_simulator_invocations := 0
    num_evaluated_parameter_combinations := 0
    num_operational_parameter_combinations := 0 }

/-- The conversion `static_cast<double>(n)` of a `uint64_t`: the integer
rounded to binary64. -/
def uint64_to_double (n : Nat) : ℚ :=
  round_double (n : ℚ)

/-- The expression `static_cast<double>(a) / static_cast<double>(b)` on two
`uint64_t` values.  The conversion of an unsigned integer is a non-negative
finite double that is zero exactly when the integer is zero, so a zero divisor
gives NaN for a zero dividend and +infinity otherwise; no exception is raised.
For a non-zero divisor the result is the quotient of the two converted values,
rounded to binary64. -/
def divide_as_double (a b : Nat) : Double :=
  if b = 0 then
    if a = 0 then Double.nan else Double.posInf
  else
    Double.finite (round_double (uint64_to_double a / uint64_to_double b))

/-- Lines 167-172: `operational_percentage_ct` and `operational_percentage_ff`
are the same expression applied to the respective statistics record. -/
def operational_percentage (s : operational_domain_stats) : Double :=
  divide_as_double s.num_operational_parameter_combinations
    s.num_evaluated_parameter_combinations

/-- The statistics columns of one row of `simulation_exp` (lines 174-184); the
gate name, `mu`, the critical temperatures and the run times are produced by
external collaborators and are not part of this record. -/
structure simulation_row where
  samples_ct : Nat
  op_ct : Double
  sim_calls_ct : Nat
  samples_ff : Nat
  op_ff : Double
  sim_calls_ff : Nat
deriving DecidableEq

/-- Lines 167-184: the row the driver appends for one gate from the
statistics of the contour-tracing run and of the flood-fill run. -/
def simulation_exp_row (op_domain_stats_ct op_domain_stats_ff : operational_domain_stats) :
    simulation_row :=
  let operational_percentage_ct := operational_percentage op_domain_stats_ct
  let operational_percentage_ff := operational_percentage op_domain_stats_ff
  { samples_ct := op_domain_stats_ct.num_evaluated_parameter_combinations
    op_ct := operational_percentage_ct
    sim_calls_ct := op_domain_stats_ct.num_simulator_invocations
    samples_ff := op_domain_stats_ff.num_evaluated_parameter_combinations
    op_ff := operational_percentage_ff
    sim_calls_ff := op_domain_stats_ff.num_simulator_invocations }

/-! ## Parameter space (source lines 110-116, spec section 3) -/

/-- The physical parameters that can be swept. -/
inductive sweep_parameter where
  | EPSILON_R
  | LAMBDA_TF
  | MU_MINUS
deriving DecidableEq

/-- One swept dimension, `{name, min, max, step}`: the element type of
`sweep_dimensions`, whose members `min`, `max` and `step` lines 111-116
assign and whose first member line 110 initialises. -/
structure Dimension where
  name : sweep_parameter
  min : ℚ
  max : ℚ
  step : ℚ
deriving DecidableEq

/-- Lines 110-116: the two dimensions the driver assigns to
`op_domain_params.sweep_dimensions`.  The members are doubles, so each holds
the binary64 value of its literal `1.0`, `10.0` or `0.05`. -/
def sweep_dimensions : List Dimension :=
  [ { name := sweep_parameter.EPSILON_R
      min := round_double 1
      max := round_double 10
      step := round_double (5 / 100) },
    { name := sweep_parameter.LAMBDA_TF
      min := round_double 1
      max := round_double 10
      step := round_double (5 / 100) } ]

/-- Modelled from the spec: the number of discrete levels along a dimension,
`floor((max-min)/step) + 1` (computed by the exploration engine, which is not
in the driver's file). -/
def Dimension.num_levels (d : Dimension) : Nat :=
  (Int.toNat ⌊(d.max - d.min) / d.step⌋) + 1

/-- Modelled from the spec: the physical value of a level index,
`value = min + index*step` (computed by the exploration engine, which is not in
the driver's file). -/
def Dimension.value (d : Dimension) (index : Nat) : ℚ :=
  d.min + (index : ℚ) * d.step

/-- Modelled from the spec: a Point is a tuple of level indices, one per
dimension (section 3). -/
abbrev Point := List Nat

/-- Modelled from the spec: every Point of the grid spanned by a list of
dimensions, first dimension outermost (the enumeration lives in the exploration
engine, which is not in the driver's file). -/
def grid_points : List Dimension → List Point
  | [] => [[]]
  | d :: ds => (List.range d.num_levels).flatMap fun i => (grid_points ds).map fun p => i :: p

/-- Modelled from the spec: the physical values of a Point, coordinate by
coordinate (`value = min + index*step`). -/
def point_values : List Dimension → Point → List ℚ
  | d :: ds, i :: p => d.value i :: point_values ds p
  | _, _ => []

/-- Modelled from the spec: the Verdict of the operational oracle (section 3). -/
inductive Verdict where
  | OPERATIONAL
  | NON_OPERATIONAL
deriving DecidableEq

/-- Modelled from the spec: the Parameter Space of the boundary scenario of
section 8, two dimensions with min 1.0, max 2.0 and step 0.5 (the scenario is a
test of the engine and is not in the driver's file). -/
def boundary_space : List Dimension :=
  [ { name := sweep_parameter.EPSILON_R, min := 1, max := 2, step := 1 / 2 },
    { name := sweep_parameter.LAMBDA_TF, min := 1, max := 2, step := 1 / 2 } ]

/-- Modelled from the spec: the oracle of the boundary scenario, OPERATIONAL
iff `x*y <= 2.25` (the scenario is a test of the engine and is not in the
driver's file). -/
def boundary_oracle (p : Point) : Verdict :=
  match point_values boundary_space p with
  | [x, y] => if x * y ≤ 225 / 100 then Verdict.OPERATIONAL else Verdict.NON_OPERATIONAL
  | _ => Verdict.NON_OPERATIONAL

/-- Modelled from the spec: a Point lies on the edge of the grid when one of
its coordinates is level index 0 or the maximum level index of its dimension. -/
def on_grid_edge : List Dimension → Point → Bool
  | d :: ds, i :: p => i == 0 || i + 1 == d.num_levels || on_grid_edge ds p
  | _, _ => false

/-- The operational Points of the boundary scenario, in grid order. -/
def boundary_operational_points : List Point :=
  (grid_points boundary_space).filter fun p => boundary_oracle p = Verdict.OPERATIONAL

/-! ## Strings (the `std::string` operations used in source lines 49-54) -/

/-- The constant `std::string::npos`, the largest `size_t`. -/
def npos : Nat := 2 ^ 64 - 1

/-- The exceptions the gate discovery loop can raise. -/
inductive Exception where
  | out_of_range
  | runtime_error (what : List Char)
deriving DecidableEq

/-- Scan of `s.find(needle)`: `i` is the position of the first character of
the remaining text. -/
def find.go (needle : List Char) : List Char → Nat → Nat
  | [], i => if needle = [] then i else npos
  | c :: cs, i => if needle.isPrefixOf (c :: cs) then i else find.go needle cs (i + 1)

/-- The call `s.find(needle)`: the position of the first occurrence of
`needle` in `s`, or `npos`. -/
def find (s needle : List Char) : Nat :=
  find.go needle s 0

/-- Scan of `s.find_last_of(chars)`: `i` is the position of the first character
of the remaining text, `best` the last match seen so far. -/
def find_last_of.go (chars : List Char) : List Char → Nat → Nat → Nat
  | [], _, best => best
  | c :: cs, i, best => find_last_of.go chars cs (i + 1) (if c ∈ chars then i else best)

/-- The call `s.find_last_of(chars)`: the highest position of `s` holding one
of `chars`, or `npos`. -/
def find_last_of (s chars : List Char) : Nat :=
  find_last_of.go chars s 0 npos

/-- Scan of `s.find_first_of(chars)`. -/
def find_first_of.go (chars : List Char) : List Char → Nat → Nat
  | [], _ => npos
  | c :: cs, i => if c ∈ chars then i else find_first_of.go chars cs (i + 1)

/-- The call `s.find_first_of(chars)`: the lowest position of `s` holding one
of `chars`, or `npos`. -/
def find_first_of (s chars : List Char) : Nat :=
  find_first_of.go chars s 0

/-- The call `s.substr(pos, n)`: throws `std::out_of_range` when
`pos > s.size()`, otherwise the at most `n` characters from `pos` on. -/
def substr (s : List Char) (pos n : Nat) : Except Exception (List Char) :=
  if pos > s.length then Except.error Exception.out_of_range
  else Except.ok ((s.drop pos).take n)

/-- The literal `".sqd"`. -/
def sqd : List Char := ['.', 's', 'q', 'd']

/-- The character set `"/\\"` of line 51. -/
def separators : List Char := ['/', '\\']

/-- The literal `"Unknown gate type: "` of line 76. -/
def unknown_gate_type : List Char := "Unknown gate type: ".toList

/-! ## Truth tables (source lines 55-74) -/

/-- A `kitty::dynamic_truth_table`: `bits` holds the output of row `j` at
position `j`. -/
structure dynamic_truth_table where
  num_vars : Nat
  bits : List Bool
deriving DecidableEq

/-- The type alias `tt` of the library. -/
abbrev tt := dynamic_truth_table

/-- The constructor `kitty::dynamic_truth_table(num_vars)`: all `2^num_vars`
rows are false. -/
def dynamic_truth_table.create (num_vars : Nat) : dynamic_truth_table :=
  { num_vars := num_vars, bits := List.replicate (2 ^ num_vars) false }

/-- The call `kitty::set_bit(tt, j)`. -/
def set_bit (t : dynamic_truth_table) (j : Nat) : dynamic_truth_table :=
  { t with bits := t.bits.set j true }

/-- The call `kitty::get_bit(tt, j)`. -/
def get_bit (t : dynamic_truth_table) (j : Nat) : Bool :=
  t.bits.getD j false

/-- The call `kitty::clear(tt)`. -/
def clear (t : dynamic_truth_table) : dynamic_truth_table :=
  { t with bits := t.bits.map fun _ => false }

/-- Modelled from the spec: the loop of `kitty::create_from_binary_string`
(a library header that is not in the driver's file), which reads the string
from its first character and sets the bits from the most significant one down:
`do { --j; if (binary[i++] == '1') set_bit(tt, j); } while (j);`.  The first
argument is the value of `j` before the decrement. -/
def create_from_binary_string.loop (binary : List Char) :
    Nat → Nat → dynamic_truth_table → dynamic_truth_table
  | 0, _, t => t
  | j + 1, i, t =>
    let t1 := if binary.getD i '0' = '1' then set_bit t j else t
    create_from_binary_string.loop binary j (i + 1) t1

/-- Modelled from the spec: `kitty::create_from_binary_string(tt, binary)`
(a library header that is not in the driver's file): the first character is
the most significant bit, the output of the last row. -/
def create_from_binary_string (t : dynamic_truth_table) (binary : List Char) :
    dynamic_truth_table :=
  create_from_binary_string.loop binary binary.length 0 (clear t)

/-- Lines 64-72: the truth table the driver builds for gate type "maj". -/
def ttmaj : dynamic_truth_table :=
  let num_vars := 3
  let ttmaj := dynamic_truth_table.create num_vars
  let binary_string := ['0', '0', '1', '0', '1', '0', '1', '1']
  create_from_binary_string ttmaj binary_string

/-- The row index of an input assignment: variable `x0` is the least
significant bit. -/
def row_index (x0 x1 x2 : Bool) : Nat :=
  x0.toNat + 2 * x1.toNat + 4 * x2.toNat

/-- The three-input majority function. -/
def MAJ (a b c : Bool) : Bool :=
  (a && b) || (a && c) || (b && c)

/-- The plain majority table `"11101000"`, built the same way. -/
def plain_majority : dynamic_truth_table :=
  create_from_binary_string (dynamic_truth_table.create 3)
    ['1', '1', '1', '0', '1', '0', '0', '0']

/-- The rows `0 .. 2^num_vars - 1` on which a table is true. -/
def true_rows (t : dynamic_truth_table) : List Nat :=
  (List.range (2 ^ t.num_vars)).filter fun j => get_bit t j

/-- The truth tables of `fiction/utils/truth_table_utils.hpp`, a header that
is not in the driver's file: they are parameters of the gate discovery. -/
structure truth_table_utils where
  create_or_tt : tt
  create_id_tt : tt
  create_not_tt : tt
  create_double_wire_tt : List tt

/-- An instance of the library's tables, built like `ttmaj`: the identity
"10", the inverter "01", the disjunction "1110" and the double wire
"1100", "1010". -/
def standard_truth_tables : truth_table_utils :=
  { create_or_tt :=
      create_from_binary_string (dynamic_truth_table.create 2) ['1', '1', '1', '0']
    create_id_tt := create_from_binary_string (dynamic_truth_table.create 1) ['1', '0']
    create_not_tt := create_from_binary_string (dynamic_truth_table.create 1) ['0', '1']
    create_double_wire_tt :=
      [create_from_binary_string (dynamic_truth_table.create 2) ['1', '1', '0', '0'],
       create_from_binary_string (dynamic_truth_table.create 2) ['1', '0', '1', '0']] }

/-! ## Gate discovery (source lines 45-79) and the layout path (line 120) -/

/-- Line 51: `path.substr(path.find_last_of("/\\") + 1)`; the addition is on
`size_t` and wraps. -/
def path_file_name (path : List Char) : Except Exception (List Char) :=
  substr path ((find_last_of path separators + 1) % 2 ^ 64) npos

/-- Lines 51-52: the gate name of a directory entry. -/
def gate_name (path : List Char) : Except Exception (List Char) := do
  let gate ← path_file_name path
  substr gate 0 (find_last_of gate ['.'])

/-- Line 54: `gate.substr(0, gate.find_first_of("_"))`. -/
def gate_type_of (gate : List Char) : Except Exception (List Char) :=
  substr gate 0 (find_first_of gate ['_'])

/-- The entries of the static vector `gates`. -/
abbrev gate_list := List (List Char × List tt)

/-- Lines 55-77: the chain of comparisons on `gate_type`. -/
def push_gate (u : truth_table_utils) (gates : gate_list) (gate gate_type : List Char) :
    Except Exception gate_list :=
  if gate_type = ['o', 'r'] then
    Except.ok (gates ++ [(gate, [u.create_or_tt])])
  else if gate_type = ['w', 'i', 'r', 'e'] then
    Except.ok (gates ++ [(gate, [u.create_id_tt])])
  else if gate_type = ['n', 'o', 't'] then
    Except.ok (gates ++ [(gate, [u.create_not_tt])])
  else if gate_type = ['w', 'i', 'r', 'e', '2'] then
    Except.ok (gates ++ [(gate, u.create_double_wire_tt)])
  else if gate_type = ['m', 'a', 'j'] then
    Except.ok (gates ++ [(gate, [ttmaj])])
  else
    Except.error (Exception.runtime_error (unknown_gate_type ++ gate_type))

/-- Lines 49-78: the body of the loop over the directory entries. -/
def register_gate (u : truth_table_utils) (gates : gate_list) (path : List Char) :
    Except Exception gate_list :=
  if find path sqd ≠ npos then do
    let gate ← gate_name path
    let gate_type ← gate_type_of gate
    push_gate u gates gate gate_type
  else
    Except.ok gates

/-- Lines 45-79: the loop over the directory entries, from the empty vector. -/
def discover_gates (u : truth_table_utils) (entries : List (List Char)) :
    Except Exception gate_list :=
  entries.foldlM (register_gate u) []

/-- Line 120: the file name part of `fmt::format("{}/{}.sqd", folder, gate)`. -/
def layout_file_name (gate : List Char) : List Char :=
  gate ++ sqd

/-- Line 120: `fmt::format("{}/{}.sqd", folder, gate)`. -/
def layout_path (folder gate : List Char) : List Char :=
  folder ++ ['/'] ++ layout_file_name gate

/-- The claim's words: the path contains the substring ".sqd". -/
def contains_sqd (path : List Char) : Prop :=
  sqd <:+: path

/-- The claim's words: the file name is the text after the last '/' or
backslash (the whole path when it has neither). -/
def file_name_text (path : List Char) : List Char :=
  path.rtakeWhile fun c => !(c = '/' || c = '\\')

/-- The claim's words: the gate name is the file name with everything from
its last '.' removed (the file name itself when it has no '.'). -/
def gate_name_text (path : List Char) : List Char :=
  if '.' ∈ file_name_text path then
    ((file_name_text path).rdropWhile fun c => !(c = '.')).dropLast
  else
    file_name_text path

/-- The claim's words: the gate type is the gate name cut before its first
'_', or the whole gate name when it has no '_'. -/
def gate_type_text (path : List Char) : List Char :=
  (gate_name_text path).takeWhile fun c => !(c = '_')

/-- The claim's words: the five known gate types. -/
def known_gate_types : List (List Char) :=
  [['o', 'r'], ['w', 'i', 'r', 'e'], ['n', 'o', 't'], ['w', 'i', 'r', 'e', '2'], ['m', 'a', 'j']]

/-! ## The two oracle configurations (source lines 81-108) -/

/-- The class `sidb_simulation_parameters`, with its four constructor
arguments in order. -/
structure sidb_simulation_parameters where
  base : Nat
  mu_minus : ℚ
  epsilon_r : ℚ
  lambda_tf : ℚ
deriving DecidableEq

/-- The simulation engines. -/
inductive sidb_simulation_engine where
  | EXGS
  | QUICKSIM
  | QUICKEXACT
  | CLUSTERCOMPLETE
deriving DecidableEq

/-- The enumeration `is_operational_params::operational_condition`. -/
inductive operational_condition where
  | TOLERATE_KINKS
  | REJECT_KINKS
deriving DecidableEq

/-- The aggregate `is_operational_params`; `B` is the type
`bdl_input_iterator_params`, which the driver only default-constructs and
copies. -/
structure is_operational_params (B : Type) where
  simulation_parameters : sidb_simulation_parameters
  sim_engine : sidb_simulation_engine
  input_bdl_iterator_params : B
  op_condition : operational_condition

/-- The default member initialisers of the library headers, which are not in
the driver's file: they are parameters of the configuration. -/
structure library_defaults (B : Type) where
  bdl_input_iterator_params : B
  op_condition : operational_condition
  sweep_dimensions : List Dimension

/-- The aggregate `critical_temperature_params`, restricted to the member the
driver initialises. -/
structure critical_temperature_params (B : Type) where
  operational_params : is_operational_params B

/-- The aggregate `operational_domain_params`. -/
structure operational_domain_params (B : Type) where
  operational_params : is_operational_params B
  sweep_dimensions : List Dimension

/-- The local variables of the body of the loop over `mus` (lines 84-116). -/
structure locals (B : Type) where
  sim_params_new : sidb_simulation_parameters
  isop_params_new : is_operational_params B
  sim_params_old : sidb_simulation_parameters
  isop_params_old : is_operational_params B
  ct_params_new : critical_temperature_params B
  ct_params_old : critical_temperature_params B
  op_domain_params : operational_domain_params B

/-- Lines 84-106: the declarations up to and including `op_domain_params`.
Aggregate initialisation copies its arguments, and the members that are not
named take their default initialisers. -/
def declare_parameters {B : Type} (lib : library_defaults B) (mu : ℚ) : locals B :=
  let sim_params_new : sidb_simulation_parameters :=
    { base := 3, mu_minus := mu, epsilon_r := 41 / 10, lambda_tf := 18 / 10 }
  let isop_params_new : is_operational_params B :=
    { simulation_parameters := sim_params_new
      sim_engine := sidb_simulation_engine.CLUSTERCOMPLETE
      input_bdl_iterator_params := lib.bdl_input_iterator_params
      op_condition := lib.op_condition }
  let sim_params_old : sidb_simulation_parameters :=
    { base := 3, mu_minus := mu, epsilon_r := 56 / 10, lambda_tf := 5 }
  let isop_params_old : is_operational_params B :=
    { simulation_parameters := sim_params_old
      sim_engine := sidb_simulation_engine.CLUSTERCOMPLETE
      input_bdl_iterator_params := lib.bdl_input_iterator_params
      op_condition := lib.op_condition }
  -- lines 95-99: `old.x = new.x = bdl_input_iterator_params{}` assigns right to left
  let isop_params_new :=
    { isop_params_new with input_bdl_iterator_params := lib.bdl_input_iterator_params }
  let isop_params_old :=
    { isop_params_old with
      input_bdl_iterator_params := isop_params_new.input_bdl_iterator_params }
  { sim_params_new := sim_params_new
    isop_params_new := isop_params_new
    sim_params_old := sim_params_old
    isop_params_old := isop_params_old
    ct_params_new := { operational_params := isop_params_new }
    ct_params_old := { operational_params := isop_params_old }
    op_domain_params :=
      { operational_params := isop_params_old, sweep_dimensions := lib.sweep_dimensions } }

/-- Line 108: the assignment to `op_domain_params.operational_params.op_condition`. -/
def set_op_condition {B : Type} (st : locals B) : locals B :=
  { st with
    op_domain_params :=
      { st.op_domain_params with
        operational_params :=
          { st.op_domain_params.operational_params with
            op_condition := operational_condition.TOLERATE_KINKS } } }

/-- Lines 110-116: the assignments to `op_domain_params.sweep_dimensions`. -/
def set_sweep_dimensions {B : Type} (st : locals B) : locals B :=
  { st with
    op_domain_params := { st.op_domain_params with sweep_dimensions := sweep_dimensions } }

/-- Lines 84-116: the configuration the driver builds for one value of `mu`. -/
def configure {B : Type} (lib : library_defaults B) (mu : ℚ) : locals B :=
  set_sweep_dimensions (set_op_condition (declare_parameters lib mu))

/-- Line 81: the array `mus`, with the decimal literal `-0.32`. -/
def mus : List ℚ := [-32 / 100]

/-! ## The exploration engine (spec sections 3 and 4; called in lines 152-161) -/

/-- Modelled from the spec: a Sample of section 3, created once per distinct
Point of a run; the oracle's metrics are carried along uninterpreted (the
engine's headers are not in the driver's file). -/
structure Sample where
  point : Point
  verdict : Verdict
  metrics : Nat
deriving DecidableEq

/-- Modelled from the spec: the Run Statistics of section 3, without the
elapsed time (the engine's headers are not in the driver's file). -/
structure RunStatistics where
  evaluated_count : Nat
  operational_count : Nat
  oracle_invocations : Nat
deriving DecidableEq

/-- Modelled from the spec: what one oracle evaluation returns (section 6):
the verdict, its metrics and the number of internal simulator invocations it
consumed. -/
structure OracleAnswer where
  verdict : Verdict
  metrics : Nat
  invocations : Nat

/-- Modelled from the spec: the Operational Oracle of section 6, bound to a
gate specification. -/
abbrev Oracle := Point → OracleAnswer

/-- Modelled from the spec: the state owned by one exploration run (the
engine's headers are not in the driver's file).  `samples` is the Domain
Result in visitation order, `stats` the Run Statistics, and `oracle_calls`
the log of the Points the Oracle has been called on. -/
structure SampleCache where
  samples : List Sample
  stats : RunStatistics
  oracle_calls : List Point

/-- Modelled from the spec: the state at the start of a run, nothing sampled
and all counters 0. -/
def SampleCache.empty : SampleCache :=
  { samples := []
    stats := { evaluated_count := 0, operational_count := 0, oracle_invocations := 0 }
    oracle_calls := [] }

/-- Modelled from the spec: the cached Sample of a Point, if it has been
evaluated in this run. -/
def SampleCache.lookup (cache : SampleCache) (point : Point) : Option Sample :=
  cache.samples.find? fun s => s.point = point

/-- Modelled from the spec: `lookup_or_evaluate(point)` of section 4.1 (the
engine's headers are not in the driver's file).  A cached Point is returned
without calling the Oracle; otherwise the Oracle is called once, the Sample is
stored, `evaluated_count` is incremented, and `operational_count` too when the
verdict is operational. -/
def lookup_or_evaluate (oracle : Oracle) (cache : SampleCache) (point : Point) :
    Sample × SampleCache :=
  match cache.lookup point with
  | some s => (s, cache)
  | none =>
    let answer := oracle point
    let s : Sample := { point := point, verdict := answer.verdict, metrics := answer.metrics }
    (s,
      { samples := cache.samples ++ [s]
        stats :=
          { evaluated_count := cache.stats.evaluated_count + 1
            operational_count :=
              cache.stats.operational_count +
                (if answer.verdict = Verdict.OPERATIONAL then 1 else 0)
            oracle_invocations := cache.stats.oracle_invocations + answer.invocations }
        oracle_calls := cache.oracle_calls ++ [point] })

/-- Modelled from the spec: a Point is inside the grid when it has one level
index per dimension, each below the number of levels. -/
def in_bounds : List Dimension → Point → Bool
  | [], [] => true
  | d :: ds, i :: p => decide (i < d.num_levels) && in_bounds ds p
  | _, _ => false

/-- Modelled from the spec: the grid-adjacent neighbours of a Point (the
2K-neighbourhood), without the ones outside the grid. -/
def neighbors : List Dimension → Point → List Point
  | d :: ds, i :: p =>
    (if 0 < i then [(i - 1) :: p] else []) ++
      (if i + 1 < d.num_levels then [(i + 1) :: p] else []) ++
      (neighbors ds p).map fun q => i :: q
  | _, _ => []

/-- Modelled from the spec: steps 2-5 of the Flood-Fill Explorer of section
4.2 (the engine's headers are not in the driver's file).  Popping a Point
that is already cached is a no-op; a new Point is evaluated through the
cache, and an operational one pushes its unvisited neighbours.  The run
stops when the queue is empty or after `budget` evaluations. -/
def flood_fill.loop (space : List Dimension) (oracle : Oracle) :
    Nat → List Point → SampleCache → SampleCache
  | 0, _, cache => cache
  | budget + 1, queue, cache =>
    match queue.dropWhile fun p => (cache.lookup p).isSome with
    | [] => cache
    | p :: rest =>
      let r := lookup_or_evaluate oracle cache p
      if r.1.verdict = Verdict.OPERATIONAL then
        flood_fill.loop space oracle budget
          (rest ++ (neighbors space p).filter fun q => (r.2.lookup q).isNone) r.2
      else
        flood_fill.loop space oracle budget rest r.2

/-- Modelled from the spec: the Flood-Fill Explorer of section 4.2, started
from the seed Points that lie inside the grid. -/
def flood_fill (space : List Dimension) (oracle : Oracle) (budget : Nat)
    (seeds : List Point) : SampleCache :=
  flood_fill.loop space oracle budget (seeds.filter (in_bounds space)) SampleCache.empty

/-- Modelled from the spec: an explorer that reaches the Oracle only through
the Sample Cache, as section 4.3 requires of the Contour-Tracing Explorer,
whose neighbour order and closure test the spec leaves open.  `next` picks
the Point to examine from the explorer's own state and what has been sampled
so far, or stops; `advance` moves on with the Sample it was given. -/
structure Explorer (σ : Type) where
  next : σ → List Sample → Option Point
  advance : σ → Sample → σ

/-- Modelled from the spec: a run of an explorer, at most `cap` steps long. -/
def Explorer.run {σ : Type} (ex : Explorer σ) (oracle : Oracle) :
    Nat → σ → SampleCache → SampleCache
  | 0, _, cache => cache
  | cap + 1, st, cache =>
    match ex.next st cache.samples with
    | none => cache
    | some p =>
      let r := lookup_or_evaluate oracle cache p
      Explorer.run ex oracle cap (ex.advance st r.1) r.2

/-- The claim's words: the number of distinct Points of a Domain Result. -/
def distinct_points (samples : List Sample) : Nat :=
  ((samples.map fun s => s.point).dedup).length

/-- The bookkeeping invariant of a run: the Domain Result lists the Points
the Oracle was called on, in order and without repetition, and the two
counters count them. -/
def SampleCache.consistent (cache : SampleCache) : Prop :=
  (cache.samples.map fun s => s.point) = cache.oracle_calls ∧
    cache.oracle_calls.Nodup ∧
    cache.stats.evaluated_count = cache.oracle_calls.length ∧
    cache.stats.operational_count =
      cache.samples.countP fun s => s.verdict = Verdict.OPERATIONAL

/-- The claim's words: no Point has more than one Oracle call, and the number
of evaluated Points equals the number of Oracle calls and the number of
distinct Points of the Domain Result, and does not exceed it. -/
def SampleCache.at_most_once (cache : SampleCache) : Prop :=
  (∀ p : Point, (cache.oracle_calls.filter fun q => decide (q = p)).length ≤ 1) ∧
    cache.stats.evaluated_count = cache.oracle_calls.length ∧
    cache.stats.evaluated_count = distinct_points cache.samples ∧
    cache.stats.evaluated_count ≤ distinct_points cache.samples

end QcaStyle

namespace QcaStyle

/-! ## Lemmas on binary64 rounding -/

theorem round_ties_even_intCast (n : ℤ) : round_ties_even (n : ℚ) = n := by
  simp [round_ties_even]

theorem round_ties_even_natCast (n : ℕ) : round_ties_even (n : ℚ) = n := by
  have := round_ties_even_intCast (n : ℤ)
  simpa using this

theorem floor_le_round_ties_even (x : ℚ) : ⌊x⌋ ≤ round_ties_even x := by
  unfold round_ties_even
  split_ifs <;> omega

theorem round_ties_even_le_floor_succ (x : ℚ) : round_ties_even x ≤ ⌊x⌋ + 1 := by
  unfold round_ties_even
  split_ifs <;> omega

theorem round_ties_even_mono {x y : ℚ} (h : x ≤ y) : round_ties_even x ≤ round_ties_even y := by
  have hf : ⌊x⌋ ≤ ⌊y⌋ := Int.floor_mono h
  rcases lt_or_eq_of_le hf with hlt | heq
  · calc round_ties_even x ≤ ⌊x⌋ + 1 := round_ties_even_le_floor_succ x
      _ ≤ ⌊y⌋ := hlt
      _ ≤ round_ties_even y := floor_le_round_ties_even y
  · have hd : x - ⌊x⌋ ≤ y - ⌊y⌋ := by
      rw [heq]
      linarith
    unfold round_ties_even
    rw [heq] at hd ⊢
    split_ifs <;> first | omega | (exfalso; linarith)

theorem le_round_ties_even {n : ℤ} {x : ℚ} (h : (n : ℚ) ≤ x) : n ≤ round_ties_even x := by
  have := round_ties_even_mono h
  rwa [round_ties_even_intCast] at this

theorem round_ties_even_le {n : ℤ} {x : ℚ} (h : x ≤ (n : ℚ)) : round_ties_even x ≤ n := by
  have := round_ties_even_mono h
  rwa [round_ties_even_intCast] at this

theorem round_double_zero : round_double 0 = 0 := by
  simp [round_double]

theorem round_double_of_pos {x : ℚ} (hx : 0 < x) :
    round_double x =
      (round_ties_even (x / 2 ^ (Int.log 2 x - 52)) : ℚ) * 2 ^ (Int.log 2 x - 52) := by
  simp [round_double, hx.ne.symm, abs_of_pos hx]

theorem ulp_eq (e : ℤ) : (2 : ℚ) ^ (e - 52) = 2 ^ e / 4503599627370496 := by
  rw [zpow_sub₀ (by norm_num : (2 : ℚ) ≠ 0)]
  norm_num

theorem zpow_succ_two (e : ℤ) : (2 : ℚ) ^ (e + 1) = 2 * 2 ^ e := by
  rw [zpow_add₀ (by norm_num : (2 : ℚ) ≠ 0)]
  norm_num
  ring

theorem log_two_bounds {x : ℚ} (hx : 0 < x) :
    (2 : ℚ) ^ Int.log 2 x ≤ x ∧ x < 2 * 2 ^ Int.log 2 x := by
  have h1 := Int.zpow_log_le_self (b := 2) (by norm_num) hx
  have h2 := Int.lt_zpow_succ_log_self (b := 2) (by norm_num) x
  rw [Nat.cast_ofNat] at h1 h2
  rw [zpow_succ_two] at h2
  exact ⟨h1, h2⟩

theorem log_two_eq {x : ℚ} {e : ℤ} (hx : 0 < x) (h1 : (2 : ℚ) ^ e ≤ x) (h2 : x < 2 * 2 ^ e) :
    Int.log 2 x = e := by
  apply le_antisymm
  · have : Int.log 2 x < e + 1 := by
      rw [← Int.lt_zpow_iff_log_lt (by norm_num) hx, Nat.cast_ofNat, zpow_succ_two]
      exact h2
    omega
  · rw [← Int.zpow_le_iff_le_log (by norm_num) hx, Nat.cast_ofNat]
    exact h1

theorem round_double_bounds {x : ℚ} (hx : 0 < x) :
    (2 : ℚ) ^ Int.log 2 x ≤ round_double x ∧ round_double x ≤ 2 * 2 ^ Int.log 2 x := by
  obtain ⟨h1, h2⟩ := log_two_bounds hx
  rw [round_double_of_pos hx, ulp_eq]
  generalize (2 : ℚ) ^ Int.log 2 x = E at h1 h2 ⊢
  have hE : 0 < E := by linarith
  have hm1 : ((4503599627370496 : ℤ) : ℚ) ≤ x / (E / 4503599627370496) := by
    rw [le_div_iff₀ (by positivity)]
    push_cast
    linarith
  have hm2 : x / (E / 4503599627370496) ≤ ((9007199254740992 : ℤ) : ℚ) := by
    rw [div_le_iff₀ (by positivity)]
    push_cast
    linarith
  have k1 : ((4503599627370496 : ℤ) : ℚ) ≤ (round_ties_even (x / (E / 4503599627370496)) : ℚ) :=
    by exact_mod_cast le_round_ties_even hm1
  have k2 : (round_ties_even (x / (E / 4503599627370496)) : ℚ) ≤ ((9007199254740992 : ℤ) : ℚ) :=
    by exact_mod_cast round_ties_even_le hm2
  push_cast at k1 k2
  constructor
  · calc E = 4503599627370496 * (E / 4503599627370496) := by ring
      _ ≤ _ := mul_le_mul_of_nonneg_right k1 (by positivity)
  · calc _ ≤ 9007199254740992 * (E / 4503599627370496) :=
        mul_le_mul_of_nonneg_right k2 (by positivity)
      _ = 2 * E := by ring

theorem round_double_pos {x : ℚ} (hx : 0 < x) : 0 < round_double x :=
  lt_of_lt_of_le (zpow_pos (by norm_num) _) (round_double_bounds hx).1

theorem round_double_mono {x y : ℚ} (hx : 0 < x) (h : x ≤ y) :
    round_double x ≤ round_double y := by
  have hy : 0 < y := lt_of_lt_of_le hx h
  have he : Int.log 2 x ≤ Int.log 2 y := Int.log_mono_right hx h
  rcases lt_or_eq_of_le he with hlt | heq
  · calc round_double x ≤ 2 * 2 ^ Int.log 2 x := (round_double_bounds hx).2
      _ = 2 ^ (Int.log 2 x + 1) := (zpow_succ_two _).symm
      _ ≤ 2 ^ Int.log 2 y := zpow_le_zpow_right₀ (by norm_num) hlt
      _ ≤ round_double y := (round_double_bounds hy).1
  · rw [round_double_of_pos hx, round_double_of_pos hy, heq]
    have hu : (0 : ℚ) < 2 ^ (Int.log 2 y - 52) := zpow_pos (by norm_num) _
    apply mul_le_mul_of_nonneg_right _ hu.le
    have : x / 2 ^ (Int.log 2 y - 52) ≤ y / 2 ^ (Int.log 2 y - 52) :=
      div_le_div_of_nonneg_right h hu.le
    exact_mod_cast round_ties_even_mono this

theorem round_double_eq_of_log {x : ℚ} {e : ℤ} (hx : 0 < x) (h1 : (2 : ℚ) ^ e ≤ x)
    (h2 : x < 2 * 2 ^ e) :
    round_double x = (round_ties_even (x / 2 ^ (e - 52)) : ℚ) * 2 ^ (e - 52) := by
  rw [round_double_of_pos hx, log_two_eq hx h1 h2]

theorem round_double_one : round_double 1 = 1 := by
  rw [round_double_eq_of_log (e := 0) (by norm_num) (by norm_num) (by norm_num)]
  have : (1 : ℚ) / 2 ^ ((0 : ℤ) - 52) = ((4503599627370496 : ℤ) : ℚ) := by
    rw [ulp_eq]
    norm_num
  rw [this, round_ties_even_intCast, ulp_eq]
  norm_num

theorem round_double_le_one {x : ℚ} (h0 : 0 ≤ x) (h1 : x ≤ 1) : round_double x ≤ 1 := by
  rcases lt_or_eq_of_le h0 with hpos | hz
  · rw [← round_double_one]
    exact round_double_mono hpos h1
  · rw [← hz, round_double_zero]
    norm_num

theorem round_double_natCast (n : ℕ) (h : n < 2 ^ 53) : round_double (n : ℚ) = n := by
  rcases Nat.eq_zero_or_pos n with rfl | hpos
  · simpa using round_double_zero
  · have hq : (0 : ℚ) < n := by exact_mod_cast hpos
    have hlog : Nat.log 2 n < 53 := Nat.log_lt_of_lt_pow (by omega) h
    obtain ⟨k, hk⟩ : ∃ k : ℕ, Nat.log 2 n + k = 52 := ⟨52 - Nat.log 2 n, by omega⟩
    have he : (Int.log 2 (n : ℚ)) - 52 = -(k : ℤ) := by
      rw [Int.log_natCast]
      omega
    rw [round_double_of_pos hq, he, zpow_neg, zpow_natCast, div_inv_eq_mul]
    have : (n : ℚ) * 2 ^ k = ((n * 2 ^ k : ℕ) : ℚ) := by push_cast; ring
    rw [this, round_ties_even_natCast]
    push_cast
    field_simp

theorem round_double_pred_one :
    round_double (9007199254740991 / 9007199254740992) =
      9007199254740991 / 9007199254740992 := by
  rw [round_double_eq_of_log (e := -1) (by norm_num) (by norm_num) (by norm_num)]
  have : (9007199254740991 / 9007199254740992 : ℚ) / 2 ^ ((-1 : ℤ) - 52) =
      ((9007199254740991 : ℤ) : ℚ) := by
    rw [ulp_eq]
    norm_num
  rw [this, round_ties_even_intCast, ulp_eq]
  norm_num

theorem round_double_two_pow_53 : round_double 9007199254740992 = 9007199254740992 := by
  rw [round_double_eq_of_log (e := 53) (by norm_num) (by norm_num) (by norm_num)]
  have : (9007199254740992 : ℚ) / 2 ^ ((53 : ℤ) - 52) = ((4503599627370496 : ℤ) : ℚ) := by
    norm_num
  rw [this, round_ties_even_intCast]
  norm_num

theorem round_double_two_pow_53_succ : round_double 9007199254740993 = 9007199254740992 := by
  rw [round_double_eq_of_log (e := 53) (by norm_num) (by norm_num) (by norm_num)]
  have e : (9007199254740993 : ℚ) / 2 ^ ((53 : ℤ) - 52) = 9007199254740993 / 2 := by
    norm_num
  have hf : ⌊(9007199254740993 / 2 : ℚ)⌋ = 4503599627370496 := by
    rw [Int.floor_eq_iff]
    norm_num
  have hr : round_ties_even (9007199254740993 / 2) = 4503599627370496 := by
    unfold round_ties_even
    rw [hf]
    norm_num
  rw [e, hr]
  norm_num

theorem sweep_quotient_rounds_up :
    round_double ((10 - 1) / (3602879701896397 / 72057594037927936)) = 180 := by
  rw [round_double_eq_of_log (e := 7) (by norm_num) (by norm_num) (by norm_num)]
  have e : ((10 - 1) / (3602879701896397 / 72057594037927936) : ℚ) / 2 ^ ((7 : ℤ) - 52) =
      22817710804108129226940657696768 / 3602879701896397 := by
    rw [ulp_eq]
    norm_num
  have hf : ⌊(22817710804108129226940657696768 / 3602879701896397 : ℚ)⌋ =
      6333186975989759 := by
    rw [Int.floor_eq_iff]
    norm_num
  have hr : round_ties_even (22817710804108129226940657696768 / 3602879701896397) =
      6333186975989760 := by
    unfold round_ties_even
    rw [hf]
    norm_num
  rw [e, hr, ulp_eq]
  norm_num

end QcaStyle

namespace QcaStyle

/-! ## Lemmas on the operational fraction -/

theorem divide_as_double_zero (a : Nat) :
    divide_as_double a 0 = if a = 0 then Double.nan else Double.posInf := by
  simp [divide_as_double]

theorem uint64_to_double_pos {n : Nat} (h : 0 < n) : 0 < uint64_to_double n :=
  round_double_pos (by exact_mod_cast h)

theorem uint64_to_double_mono {a b : Nat} (ha : 0 < a) (h : a ≤ b) :
    uint64_to_double a ≤ uint64_to_double b :=
  round_double_mono (by exact_mod_cast ha) (by exact_mod_cast h)

theorem round_double_quotient_lt_one {a b : Nat} (hab : a < b) (hb : b < 2 ^ 53) :
    round_double ((a : ℚ) / (b : ℚ)) < 1 := by
  have hbq : (0 : ℚ) < (b : ℚ) := by exact_mod_cast (by omega : 0 < b)
  rcases Nat.eq_zero_or_pos a with rfl | ha
  · simp [round_double_zero]
  · have haq : (0 : ℚ) < (a : ℚ) := by exact_mod_cast ha
    have hn : a * 9007199254740992 ≤ 9007199254740991 * b := by
      norm_num at hb
      omega
    have hle : (a : ℚ) / (b : ℚ) ≤ 9007199254740991 / 9007199254740992 := by
      rw [div_le_div_iff₀ hbq (by norm_num)]
      exact_mod_cast hn
    calc round_double ((a : ℚ) / (b : ℚ))
        ≤ round_double (9007199254740991 / 9007199254740992) :=
          round_double_mono (div_pos haq hbq) hle
      _ = 9007199254740991 / 9007199254740992 := round_double_pred_one
      _ < 1 := by norm_num

theorem divide_as_double_unit (a b : Nat) (hb : 0 < b) (hab : a ≤ b) :
    ∃ q : ℚ, divide_as_double a b = Double.finite q ∧
      q = round_double (uint64_to_double a / uint64_to_double b) ∧
      0 ≤ q ∧ q ≤ 1 ∧ (q = 0 ↔ a = 0) ∧ (a = b → q = 1) ∧
      (b < 2 ^ 53 → q = round_double ((a : ℚ) / (b : ℚ)) ∧ (q = 1 ↔ a = b)) := by
  have hb0 : b ≠ 0 := Nat.pos_iff_ne_zero.mp hb
  have hB : 0 < uint64_to_double b := uint64_to_double_pos hb
  have hself : ∀ n : Nat, 0 < n →
      round_double (uint64_to_double n / uint64_to_double n) = 1 := by
    intro n hn
    rw [div_self (uint64_to_double_pos hn).ne.symm, round_double_one]
  have hsmall : b < 2 ^ 53 →
      round_double (uint64_to_double a / uint64_to_double b) =
        round_double ((a : ℚ) / (b : ℚ)) := by
    intro h
    simp only [uint64_to_double, round_double_natCast a (lt_of_le_of_lt hab h),
      round_double_natCast b h]
  refine ⟨round_double (uint64_to_double a / uint64_to_double b),
    by simp [divide_as_double, hb0], rfl, ?_⟩
  rcases Nat.eq_zero_or_pos a with rfl | ha
  · have hz : round_double (uint64_to_double 0 / uint64_to_double b) = 0 := by
      simp [uint64_to_double, round_double_zero]
    rw [hz]
    refine ⟨le_refl 0, by norm_num, by simp, fun h => absurd h.symm hb0, fun h => ?_⟩
    refine ⟨by rw [← hsmall h, hz], ⟨fun h1 => absurd h1 (by norm_num), fun h1 => absurd h1.symm hb0⟩⟩
  · have hA : 0 < uint64_to_double a := uint64_to_double_pos ha
    have hx : 0 < uint64_to_double a / uint64_to_double b := div_pos hA hB
    have hx1 : uint64_to_double a / uint64_to_double b ≤ 1 :=
      (div_le_one hB).mpr (uint64_to_double_mono ha hab)
    have hq : 0 < round_double (uint64_to_double a / uint64_to_double b) :=
      round_double_pos hx
    refine ⟨hq.le, round_double_le_one hx.le hx1, ?_, ?_, ?_⟩
    · exact ⟨fun h => absurd h hq.ne.symm, fun h => absurd h (by omega)⟩
    · rintro rfl
      exact hself a ha
    · intro h
      refine ⟨hsmall h, ?_, ?_⟩
      · intro h1
        by_contra hne
        have hlt : a < b := lt_of_le_of_ne hab hne
        have := round_double_quotient_lt_one hlt h
        rw [← hsmall h, h1] at this
        exact lt_irrefl _ this
      · rintro rfl
        exact hself a ha

theorem divide_as_double_ties :
    divide_as_double 9007199254740992 9007199254740993 = Double.finite 1 := by
  have h1 : uint64_to_double 9007199254740992 = 9007199254740992 := by
    simp only [uint64_to_double, Nat.cast_ofNat]
    exact round_double_two_pow_53
  have h2 : uint64_to_double 9007199254740993 = 9007199254740992 := by
    simp only [uint64_to_double, Nat.cast_ofNat]
    exact round_double_two_pow_53_succ
  simp only [divide_as_double, h1, h2]
  rw [if_neg (by norm_num), div_self (by norm_num), round_double_one]

/-! ## Lemmas on the grids -/

theorem floor_boundary : ⌊((2 : ℚ) - 1) / (1 / 2)⌋ = 2 := by norm_num

theorem num_levels_boundary (n : sweep_parameter) :
    Dimension.num_levels { name := n, min := 1, max := 2, step := 1 / 2 } = 3 := by
  simp only [Dimension.num_levels, floor_boundary]
  rfl

theorem grid_points_boundary :
    grid_points boundary_space =
      [[0, 0], [0, 1], [0, 2], [1, 0], [1, 1], [1, 2], [2, 0], [2, 1], [2, 2]] := by
  simp only [grid_points, boundary_space, num_levels_boundary]
  decide

theorem boundary_operational_points_eq :
    boundary_operational_points = [[0, 0], [0, 1], [0, 2], [1, 0], [1, 1], [2, 0]] := by
  simp only [boundary_operational_points, grid_points_boundary]
  simp [List.filter, boundary_oracle, point_values, boundary_space, Dimension.value]
  norm_num

theorem on_grid_edge_boundary (i j : Nat) :
    on_grid_edge boundary_space [i, j] = (i == 0 || i + 1 == 3 || (j == 0 || j + 1 == 3)) := by
  simp only [on_grid_edge, boundary_space, num_levels_boundary, Bool.or_false]

end QcaStyle

namespace QcaStyle

/-! ## Lemmas on the Sample Cache -/

theorem SampleCache.lookup_eq_none_iff (cache : SampleCache) (p : Point) :
    cache.lookup p = none ↔ p ∉ cache.samples.map fun s => s.point := by
  simp only [SampleCache.lookup, List.find?_eq_none, List.mem_map, not_exists, not_and]
  constructor
  · intro h s hs e
    have := h s hs
    simp [e] at this
  · intro h s hs
    have := h s hs
    simpa using this

theorem SampleCache.empty_consistent : SampleCache.empty.consistent := by
  simp [SampleCache.consistent, SampleCache.empty]

theorem lookup_or_evaluate_consistent (oracle : Oracle) (cache : SampleCache) (p : Point)
    (h : cache.consistent) : (lookup_or_evaluate oracle cache p).2.consistent := by
  unfold lookup_or_evaluate
  cases hl : cache.lookup p with
  | some s => exact h
  | none =>
    obtain ⟨h1, h2, h3, h4⟩ := h
    have hp : p ∉ cache.oracle_calls := by
      rw [← h1]
      exact (cache.lookup_eq_none_iff p).mp hl
    refine ⟨?_, ?_, ?_, ?_⟩
    · simp [h1]
    · exact List.Nodup.append h2 (List.nodup_singleton p) (by simpa using hp)
    · simp [h3]
    · simp only [List.countP_append, h4]
      cases (oracle p).verdict <;> simp [List.countP_cons, List.countP_nil]

theorem flood_fill.loop_consistent (space : List Dimension) (oracle : Oracle) (budget : Nat) :
    ∀ (queue : List Point) (cache : SampleCache), cache.consistent →
      (flood_fill.loop space oracle budget queue cache).consistent := by
  induction budget with
  | zero =>
    intro queue cache h
    simpa [flood_fill.loop] using h
  | succ budget ih =>
    intro queue cache h
    unfold flood_fill.loop
    split
    · exact h
    · dsimp only
      split
      · exact ih _ _ (lookup_or_evaluate_consistent oracle cache _ h)
      · exact ih _ _ (lookup_or_evaluate_consistent oracle cache _ h)

theorem Explorer.run_consistent {σ : Type} (ex : Explorer σ) (oracle : Oracle) (cap : Nat) :
    ∀ (st : σ) (cache : SampleCache), cache.consistent →
      (Explorer.run ex oracle cap st cache).consistent := by
  induction cap with
  | zero =>
    intro st cache h
    simpa [Explorer.run] using h
  | succ cap ih =>
    intro st cache h
    unfold Explorer.run
    split
    · exact h
    · exact ih _ _ (lookup_or_evaluate_consistent oracle cache _ h)

theorem length_filter_eq_le_one (p : Point) :
    ∀ l : List Point, l.Nodup → (l.filter fun q => decide (q = p)).length ≤ 1 := by
  intro l
  induction l with
  | nil => intro _; simp
  | cons a l ih =>
    intro h
    rw [List.nodup_cons] at h
    by_cases hap : a = p
    · subst hap
      have : (l.filter fun q => decide (q = a)) = [] := by
        rw [List.filter_eq_nil_iff]
        intro q hq
        simp only [decide_eq_true_eq]
        rintro rfl
        exact h.1 hq
      simp [List.filter_cons, this]
    · simpa [List.filter_cons, hap] using ih h.2

theorem SampleCache.consistent.at_most_once {cache : SampleCache} (h : cache.consistent) :
    cache.at_most_once := by
  obtain ⟨h1, h2, h3, -⟩ := h
  have hd : distinct_points cache.samples = cache.oracle_calls.length := by
    simp only [distinct_points, h1, h2.dedup]
  exact ⟨fun p => length_filter_eq_le_one p _ h2, h3, by rw [hd, h3], by rw [hd, h3]⟩

end QcaStyle

namespace QcaStyle

/-! ## Lemmas on the string operations -/

theorem npos_eq : npos = 18446744073709551615 := by
  norm_num [npos]

theorem takeWhile_append_cons {α : Type} (p : α → Bool) (c : α) (v : List α) (hc : p c = false) :
    ∀ u : List α, (∀ x ∈ u, p x = true) →
      (u ++ c :: v).takeWhile p = u ∧ (u ++ c :: v).dropWhile p = c :: v := by
  intro u
  induction u with
  | nil => intro _; simp [List.takeWhile, List.dropWhile, hc]
  | cons a u ih =>
    intro h
    have ha : p a = true := h a (List.mem_cons_self _ _)
    have hu := ih fun x hx => h x (List.mem_cons_of_mem _ hx)
    simp [List.takeWhile, List.dropWhile, ha, hu.1, hu.2]

theorem rtakeWhile_append_cons {α : Type} (p : α → Bool) (a : List α) (c : α) (b : List α)
    (hc : p c = false) (hb : ∀ x ∈ b, p x = true) :
    (a ++ c :: b).rtakeWhile p = b ∧ (a ++ c :: b).rdropWhile p = a ++ [c] := by
  have h := takeWhile_append_cons p c a.reverse hc b.reverse
    (fun x hx => hb x (List.mem_reverse.mp hx))
  simp only [List.rtakeWhile, List.rdropWhile, List.reverse_append, List.reverse_cons,
    List.append_assoc, List.singleton_append, h.1, h.2, List.reverse_reverse]
  simp

theorem rtakeWhile_all {α : Type} (p : α → Bool) (l : List α) (h : ∀ x ∈ l, p x = true) :
    l.rtakeWhile p = l := by
  have : l.reverse.takeWhile p = l.reverse := by
    rw [List.takeWhile_eq_self_iff]
    intro x hx
    exact h x (List.mem_reverse.mp hx)
  simp [List.rtakeWhile, this]

theorem find.go_ne_npos_iff (needle : List Char) :
    ∀ (s : List Char) (i : Nat), i + s.length < npos →
      (find.go needle s i ≠ npos ↔ needle <:+: s) := by
  intro s
  induction s with
  | nil =>
    intro i hi
    by_cases hn : needle = []
    · subst hn
      simp only [find.go, if_true, List.length_nil, Nat.add_zero] at hi ⊢
      simp
      omega
    · simp [find.go, hn]
  | cons c cs ih =>
    intro i hi
    simp only [List.length_cons] at hi
    by_cases hp : needle.isPrefixOf (c :: cs) = true
    · have hp2 : needle <+: c :: cs := List.isPrefixOf_iff_prefix.mp hp
      simp only [find.go, hp, if_true]
      exact ⟨fun _ => hp2.isInfix, fun _ => by omega⟩
    · have hp2 : ¬ needle <+: c :: cs := fun h => hp (List.isPrefixOf_iff_prefix.mpr h)
      simp only [find.go, hp, Bool.false_eq_true, if_false]
      rw [ih (i + 1) (by omega), List.infix_cons_iff]
      simp [hp2]

theorem find_ne_npos_iff (s needle : List Char) (h : s.length < npos) :
    find s needle ≠ npos ↔ needle <:+: s :=
  find.go_ne_npos_iff needle s 0 (by simpa using h)

theorem find_last_of.go_spec (chars : List Char) :
    ∀ (l : List Char) (i best : Nat),
      (find_last_of.go chars l i best = best ∧ ∀ x ∈ l, x ∉ chars) ∨
      (∃ a c b, l = a ++ c :: b ∧ c ∈ chars ∧ (∀ x ∈ b, x ∉ chars) ∧
        find_last_of.go chars l i best = i + a.length) := by
  intro l
  induction l with
  | nil => intro i best; left; simp [find_last_of.go]
  | cons c cs ih =>
    intro i best
    rcases ih (i + 1) (if c ∈ chars then i else best) with ⟨h1, h2⟩ | ⟨a, d, b, h1, h2, h3, h4⟩
    · by_cases hc : c ∈ chars
      · right
        refine ⟨[], c, cs, rfl, hc, h2, ?_⟩
        simp only [hc, if_true] at h1
        simp only [find_last_of.go, hc, if_true, h1, List.length_nil, Nat.add_zero]
      · left
        refine ⟨?_, ?_⟩
        · simp only [hc, if_false] at h1
          simp only [find_last_of.go, hc, if_false, h1]
        · intro x hx
          rcases List.mem_cons.mp hx with rfl | hx
          · exact hc
          · exact h2 x hx
    · right
      refine ⟨c :: a, d, b, by simp [h1], h2, h3, ?_⟩
      simp only [find_last_of.go, h4, List.length_cons]
      omega

theorem find_first_of.go_ge (chars : List Char) :
    ∀ (l : List Char) (i : Nat), i + l.length < npos → i ≤ find_first_of.go chars l i := by
  intro l
  induction l with
  | nil => intro i hi; simp only [find_first_of.go]; omega
  | cons c cs ih =>
    intro i hi
    simp only [List.length_cons] at hi
    simp only [find_first_of.go]
    split
    · exact le_refl i
    · have := ih (i + 1) (by omega)
      omega

theorem find_first_of.go_take (chars : List Char) :
    ∀ (l : List Char) (i : Nat), i + l.length < npos →
      l.take (find_first_of.go chars l i - i) = l.takeWhile fun c => !decide (c ∈ chars) := by
  intro l
  induction l with
  | nil => intro i _; simp
  | cons c cs ih =>
    intro i hi
    simp only [List.length_cons] at hi
    by_cases hc : c ∈ chars
    · simp [find_first_of.go, hc, List.takeWhile]
    · have hge := find_first_of.go_ge chars cs (i + 1) (by omega)
      have e : find_first_of.go chars cs (i + 1) - i =
          (find_first_of.go chars cs (i + 1) - (i + 1)) + 1 := by omega
      simp only [find_first_of.go, hc, if_false, e, List.take_succ_cons, ih (i + 1) (by omega)]
      simp [List.takeWhile, hc]

end QcaStyle

namespace QcaStyle

/-! ## Lemmas on the gate name -/

theorem substr_take_all (s : List Char) (h : s.length < npos) :
    substr s 0 npos = Except.ok s := by
  simp only [substr, Nat.not_lt_zero, if_false, List.drop_zero, gt_iff_lt]
  rw [List.take_of_length_le (by omega)]

theorem file_name_text_length_le (path : List Char) :
    (file_name_text path).length ≤ path.length :=
  (List.rtakeWhile_suffix _ _).length_le

theorem path_file_name_eq (path : List Char) (h : path.length < npos) :
    path_file_name path = Except.ok (file_name_text path) := by
  have hn := npos_eq
  unfold path_file_name find_last_of
  rcases find_last_of.go_spec separators path 0 npos with ⟨h1, h2⟩ | ⟨a, c, b, h1, h2, h3, h4⟩
  · have e : (npos + 1) % 2 ^ 64 = 0 := by rw [hn]; norm_num
    rw [h1, e, substr_take_all path h]
    have : file_name_text path = path := by
      apply rtakeWhile_all
      intro x hx
      have := h2 x hx
      simp only [separators, List.mem_cons, List.mem_singleton, List.not_mem_nil, or_false,
        not_or] at this
      simp [this.1, this.2]
    rw [this]
  · have hlen : path.length = a.length + (b.length + 1) := by simp [h1]
    have e : (0 + a.length + 1) % 2 ^ 64 = a.length + 1 := by
      rw [Nat.zero_add]
      apply Nat.mod_eq_of_lt
      omega
    have hc : (fun x : Char => !(decide (x = '/') || decide (x = '\\'))) c = false := by
      simp only [separators, List.mem_cons, List.mem_singleton, List.not_mem_nil,
        or_false] at h2
      rcases h2 with rfl | rfl <;> simp
    have hb : ∀ x ∈ b, (fun x : Char => !(decide (x = '/') || decide (x = '\\'))) x = true := by
      intro x hx
      have := h3 x hx
      simp only [separators, List.mem_cons, List.mem_singleton, List.not_mem_nil, or_false,
        not_or] at this
      simp [this.1, this.2]
    have hf : file_name_text path = b := by
      unfold file_name_text
      rw [h1]
      exact (rtakeWhile_append_cons _ a c b hc hb).1
    have hd : List.drop (a.length + 1) path = b := by
      rw [h1]
      simp
    rw [h4, e, hf]
    simp only [substr, hd]
    rw [if_neg (by omega), List.take_of_length_le (by omega)]

theorem gate_name_text_of_split (path a b : List Char)
    (hf : file_name_text path = a ++ '.' :: b) (hb : ∀ x ∈ b, x ≠ '.') :
    gate_name_text path = a := by
  unfold gate_name_text
  rw [hf, if_pos (by simp)]
  have := (rtakeWhile_append_cons (fun c : Char => !decide (c = '.')) a '.' b (by simp)
    (fun x hx => by simpa using hb x hx)).2
  rw [this]
  simp

theorem gate_name_eq (path : List Char) (h : path.length < npos) :
    gate_name path = Except.ok (gate_name_text path) := by
  have hfl := file_name_text_length_le path
  unfold gate_name
  rw [path_file_name_eq path h]
  show substr (file_name_text path) 0 (find_last_of (file_name_text path) ['.']) = _
  unfold find_last_of
  rcases find_last_of.go_spec ['.'] (file_name_text path) 0 npos with
    ⟨h1, h2⟩ | ⟨a, c, b, h1, h2, h3, h4⟩
  · rw [h1, substr_take_all _ (by omega)]
    have : '.' ∉ file_name_text path := fun hm => h2 _ hm (by simp)
    simp [gate_name_text, this]
  · have hc : c = '.' := by simpa using h2
    subst hc
    have hg := gate_name_text_of_split path a b h1 (fun x hx => by simpa using h3 x hx)
    rw [h4, hg, h1]
    simp [substr]

theorem gate_name_text_length_le (path : List Char) :
    (gate_name_text path).length ≤ path.length := by
  have hfl := file_name_text_length_le path
  unfold gate_name_text
  split
  · have h1 := (List.rdropWhile_prefix (fun c : Char => !decide (c = '.'))
      (file_name_text path)).length_le
    have h2 := List.length_dropLast
      (List.rdropWhile (fun c : Char => !decide (c = '.')) (file_name_text path))
    omega
  · exact hfl

theorem gate_type_of_eq (gate : List Char) (h : gate.length < npos) :
    gate_type_of gate = Except.ok (gate.takeWhile fun c => !(c = '_')) := by
  have := find_first_of.go_take ['_'] gate 0 (by simpa using h)
  simp only [Nat.sub_zero, List.mem_singleton] at this
  simp only [gate_type_of, substr, find_first_of, Nat.not_lt_zero, if_false, List.drop_zero,
    gt_iff_lt, this]

theorem gate_type_of_gate_name (path : List Char) (h : path.length < npos) :
    gate_type_of (gate_name_text path) = Except.ok (gate_type_text path) :=
  gate_type_of_eq _ (lt_of_le_of_lt (gate_name_text_length_le path) h)

theorem register_gate_eq (u : truth_table_utils) (gates : gate_list) (path : List Char)
    (h : path.length < npos) :
    register_gate u gates path =
      if sqd <:+: path then push_gate u gates (gate_name_text path) (gate_type_text path)
      else Except.ok gates := by
  unfold register_gate
  by_cases hs : sqd <:+: path
  · rw [if_pos ((find_ne_npos_iff path sqd h).mpr hs), if_pos hs, gate_name_eq path h]
    show (gate_type_of (gate_name_text path) >>= fun t => push_gate u gates _ t) = _
    rw [gate_type_of_gate_name path h]
    rfl
  · rw [if_neg (fun hf => hs ((find_ne_npos_iff path sqd h).mp hf)), if_neg hs]

end QcaStyle

namespace QcaStyle

/-! ## The claims on the statistics row -/

/-- C1, as stated, fails: for the value-initialised statistics record, whose
evaluated count is 0, the driver's division raises nothing and yields NaN,
which is not 0. -/
theorem operational_percentage_init_not_zero :
    operational_domain_stats.init.num_evaluated_parameter_combinations = 0 ∧
      operational_percentage operational_domain_stats.init = Double.nan ∧
      operational_percentage operational_domain_stats.init ≠ Double.finite 0 := by
  refine ⟨rfl, ?_, ?_⟩ <;> simp [operational_percentage, divide_as_double,
    operational_domain_stats.init]

/-- C1, amended: when the evaluated count of a statistics record is 0, the
fraction the driver computes for it (contour tracing and flood fill alike) is
NaN for an operational count of 0 and +infinity otherwise; it is never a
finite value, so never 0. -/
theorem operational_percentage_zero_evaluated (ct ff : operational_domain_stats) :
    (ct.num_evaluated_parameter_combinations = 0 →
      (simulation_exp_row ct ff).op_ct =
          (if ct.num_operational_parameter_combinations = 0 then Double.nan
           else Double.posInf) ∧
        ∀ q : ℚ, (simulation_exp_row ct ff).op_ct ≠ Double.finite q) ∧
    (ff.num_evaluated_parameter_combinations = 0 →
      (simulation_exp_row ct ff).op_ff =
          (if ff.num_operational_parameter_combinations = 0 then Double.nan
           else Double.posInf) ∧
        ∀ q : ℚ, (simulation_exp_row ct ff).op_ff ≠ Double.finite q) := by
  constructor
  · intro h
    have e : (simulation_exp_row ct ff).op_ct =
        divide_as_double ct.num_operational_parameter_combinations 0 := by
      simp [simulation_exp_row, operational_percentage, h]
    rw [e, divide_as_double_zero]
    refine ⟨rfl, fun q => ?_⟩
    split <;> simp
  · intro h
    have e : (simulation_exp_row ct ff).op_ff =
        divide_as_double ff.num_operational_parameter_combinations 0 := by
      simp [simulation_exp_row, operational_percentage, h]
    rw [e, divide_as_double_zero]
    refine ⟨rfl, fun q => ?_⟩
    split <;> simp

/-- Witness of `operational_percentage_zero_evaluated`: the value-initialised
contour-tracing record next to a flood-fill record with 3 operational Points
out of 0 evaluated. -/
theorem operational_percentage_zero_evaluated_witness :
    (simulation_exp_row operational_domain_stats.init
        { num_simulator_invocations := 7
          num_evaluated_parameter_combinations := 0
          num_operational_parameter_combinations := 3 }).op_ct = Double.nan ∧
      (simulation_exp_row operational_domain_stats.init
        { num_simulator_invocations := 7
          num_evaluated_parameter_combinations := 0
          num_operational_parameter_combinations := 3 }).op_ff = Double.posInf := by
  have h := operational_percentage_zero_evaluated operational_domain_stats.init
    { num_simulator_invocations := 7
      num_evaluated_parameter_combinations := 0
      num_operational_parameter_combinations := 3 }
  exact ⟨(h.1 rfl).1, (h.2 rfl).1⟩

/-- C2, as stated, fails: for the record with 2^53 operational Points out of
2^53 + 1 evaluated, the evaluated count is positive and the operational count
is smaller, yet the fraction the driver computes is exactly 1, since the
conversion of 2^53 + 1 to binary64 is 2^53. -/
theorem operational_percentage_one_below_evaluated :
    operational_percentage
        { num_simulator_invocations := 9007199254740993
          num_evaluated_parameter_combinations := 9007199254740993
          num_operational_parameter_combinations := 9007199254740992 } = Double.finite 1 ∧
      (9007199254740992 : Nat) < 9007199254740993 ∧
      (9007199254740993 : Nat) < 2 ^ 64 :=
  ⟨divide_as_double_ties, by norm_num, by norm_num⟩

/-- C2, amended: for a statistics record (contour tracing or flood fill, each
under its own conditions alone) with a positive evaluated count below 2^64
and an operational count that does not exceed it, the fraction of the row is
finite, is the binary64 quotient of the two converted counters, lies in
[0, 1], is 0 exactly when the operational count is 0 and is 1 when the two
counts are equal; when the evaluated count is below 2^53 it is the exact
quotient rounded to binary64 and is 1 only when the two counts are equal. -/
theorem operational_percentage_unit_interval (ct ff : operational_domain_stats) :
    (0 < ct.num_evaluated_parameter_combinations →
      ct.num_evaluated_parameter_combinations < 2 ^ 64 →
      ct.num_operational_parameter_combinations ≤ ct.num_evaluated_parameter_combinations →
      ∃ q : ℚ, (simulation_exp_row ct ff).op_ct = Double.finite q ∧
        q = round_double
          (uint64_to_double ct.num_operational_parameter_combinations /
            uint64_to_double ct.num_evaluated_parameter_combinations) ∧
        0 ≤ q ∧ q ≤ 1 ∧
        (q = 0 ↔ ct.num_operational_parameter_combinations = 0) ∧
        (ct.num_operational_parameter_combinations =
          ct.num_evaluated_parameter_combinations → q = 1) ∧
        (ct.num_evaluated_parameter_combinations < 2 ^ 53 →
          q = round_double
            ((ct.num_operational_parameter_combinations : ℚ) /
              (ct.num_evaluated_parameter_combinations : ℚ)) ∧
          (q = 1 ↔ ct.num_operational_parameter_combinations =
            ct.num_evaluated_parameter_combinations))) ∧
    (0 < ff.num_evaluated_parameter_combinations →
      ff.num_evaluated_parameter_combinations < 2 ^ 64 →
      ff.num_operational_parameter_combinations ≤ ff.num_evaluated_parameter_combinations →
      ∃ q : ℚ, (simulation_exp_row ct ff).op_ff = Double.finite q ∧
        q = round_double
          (uint64_to_double ff.num_operational_parameter_combinations /
            uint64_to_double ff.num_evaluated_parameter_combinations) ∧
        0 ≤ q ∧ q ≤ 1 ∧
        (q = 0 ↔ ff.num_operational_parameter_combinations = 0) ∧
        (ff.num_operational_parameter_combinations =
          ff.num_evaluated_parameter_combinations → q = 1) ∧
        (ff.num_evaluated_parameter_combinations < 2 ^ 53 →
          q = round_double
            ((ff.num_operational_parameter_combinations : ℚ) /
              (ff.num_evaluated_parameter_combinations : ℚ)) ∧
          (q = 1 ↔ ff.num_operational_parameter_combinations =
            ff.num_evaluated_parameter_combinations))) :=
  ⟨fun hpos _ hle => divide_as_double_unit _ _ hpos hle,
    fun hpos _ hle => divide_as_double_unit _ _ hpos hle⟩

/-- Witness of `operational_percentage_unit_interval`: 3 operational Points
of 4 evaluated by contour tracing, next to a flood-fill record with nothing
evaluated, and 5 of 5 by flood fill. -/
theorem operational_percentage_unit_interval_witness :
    (∃ q : ℚ, (simulation_exp_row
        { num_simulator_invocations := 9
          num_evaluated_parameter_combinations := 4
          num_operational_parameter_combinations := 3 }
        operational_domain_stats.init).op_ct = Double.finite q ∧ q ≤ 1 ∧ q ≠ 1) ∧
    (∃ q : ℚ, (simulation_exp_row operational_domain_stats.init
        { num_simulator_invocations := 9
          num_evaluated_parameter_combinations := 5
          num_operational_parameter_combinations := 5 }).op_ff = Double.finite q ∧
        q = 1) := by
  obtain ⟨q, h1, -, -, h3, -, -, h5⟩ :=
    (operational_percentage_unit_interval
      { num_simulator_invocations := 9
        num_evaluated_parameter_combinations := 4
        num_operational_parameter_combinations := 3 }
      operational_domain_stats.init).1 (by decide) (by norm_num) (by decide)
  obtain ⟨r, k1, -, -, -, -, k4, -⟩ :=
    (operational_percentage_unit_interval operational_domain_stats.init
      { num_simulator_invocations := 9
        num_evaluated_parameter_combinations := 5
        num_operational_parameter_combinations := 5 }).2 (by decide) (by norm_num) (by decide)
  exact ⟨⟨q, h1, h3, fun hq => absurd ((h5 (by norm_num)).2.mp hq) (by decide)⟩,
    ⟨r, k1, k4 rfl⟩⟩

/-! ## The claims on the grids -/

/-- C3, as stated, fails: in the boundary scenario the number of grid Points
that satisfy `x*y <= 2.25` is not 5. -/
theorem boundary_operational_count_ne_five :
    boundary_operational_points.length ≠ 5 := by
  rw [boundary_operational_points_eq]
  decide

/-- C3, amended: in the boundary scenario the grid has 9 Points and exactly 6
of them satisfy the oracle's predicate: the level-index pairs (0,0), (0,1),
(0,2), (1,0), (1,1) and (2,0). -/
theorem boundary_operational_count :
    (boundary_space.map fun d => (List.range d.num_levels).map d.value) =
        [[1, 3 / 2, 2], [1, 3 / 2, 2]] ∧
      (grid_points boundary_space).length = 9 ∧
      boundary_operational_points = [[0, 0], [0, 1], [0, 2], [1, 0], [1, 1], [2, 0]] ∧
      boundary_operational_points.length = 6 := by
  refine ⟨?_, ?_, boundary_operational_points_eq, ?_⟩
  · simp only [boundary_space, List.map, num_levels_boundary]
    simp [List.range, List.range.loop, Dimension.value]
    norm_num
  · rw [grid_points_boundary]
    rfl
  · rw [boundary_operational_points_eq]
    rfl

/-- C4, as stated, fails: the operational Point (0,0), the seed (1.0, 1.0),
has a coordinate at level index 0, so the operational region touches the
edge of the grid. -/
theorem boundary_region_touches_edge :
    [0, 0] ∈ boundary_operational_points ∧
      boundary_oracle [0, 0] = Verdict.OPERATIONAL ∧
      on_grid_edge boundary_space [0, 0] = true := by
  have h : [0, 0] ∈ boundary_operational_points := by
    rw [boundary_operational_points_eq]
    simp
  refine ⟨h, ?_, ?_⟩
  · simpa using (List.mem_filter.mp h).2
  · rw [on_grid_edge_boundary]
    rfl

/-- C4, amended: in the boundary scenario the operational region touches the
edge of the grid; the operational Points with a coordinate at level index 0
or 2 are (0,0), (0,1), (0,2), (1,0) and (2,0), and the only operational Point
with no such coordinate is (1,1). -/
theorem boundary_region_edge_points :
    (boundary_operational_points.filter fun p => on_grid_edge boundary_space p) =
        [[0, 0], [0, 1], [0, 2], [1, 0], [2, 0]] ∧
      (boundary_operational_points.filter fun p => !on_grid_edge boundary_space p) =
        [[1, 1]] := by
  rw [boundary_operational_points_eq]
  simp only [List.filter, on_grid_edge_boundary]
  decide

/-- C7: the table the driver builds from "00101011" has 3 variables, its
output on every assignment `(x0, x1, x2)` is `MAJ(x0, NOT x1, NOT x2)`, its
true rows are 0, 1, 3 and 5, and it differs from the plain majority table
"11101000". -/
theorem ttmaj_is_majority_with_complements :
    ttmaj.num_vars = 3 ∧
      (∀ x0 x1 x2 : Bool, get_bit ttmaj (row_index x0 x1 x2) = MAJ x0 (!x1) (!x2)) ∧
      get_bit ttmaj 7 = false ∧
      true_rows ttmaj = [0, 1, 3, 5] ∧
      (true_rows ttmaj).length = 4 ∧
      true_rows plain_majority = [3, 5, 6, 7] ∧
      ttmaj ≠ plain_majority := by
  decide

end QcaStyle

namespace QcaStyle

/-! ## The claim on the two configurations -/

/-- C10: for every `mu`, the operational-domain parameters start as a copy of
the old configuration (epsilon_r 5.6, lambda_tf 5); the assignment of
TOLERATE_KINKS changes only the copy, in any state, so both
critical-temperature parameter sets and both `is_operational_params` keep the
default condition; the old and the new configuration agree on `mu`, on the
first argument 3, on the engine and on the default input-BDL iterator
parameters, and the old one is the new one with epsilon_r 5.6 for 4.1 and
lambda_tf 5 for 1.8. -/
theorem configurations_independent {B : Type} (lib : library_defaults B) (mu : ℚ) :
    (declare_parameters lib mu).op_domain_params.operational_params =
        (declare_parameters lib mu).isop_params_old ∧
      (declare_parameters lib mu).op_domain_params.operational_params.simulation_parameters =
        { base := 3, mu_minus := mu, epsilon_r := 56 / 10, lambda_tf := 5 } ∧
      (∀ st : locals B,
        (set_op_condition st).ct_params_old = st.ct_params_old ∧
        (set_op_condition st).ct_params_new = st.ct_params_new ∧
        (set_op_condition st).isop_params_old = st.isop_params_old ∧
        (set_op_condition st).isop_params_new = st.isop_params_new ∧
        (set_op_condition st).op_domain_params.operational_params.op_condition =
          operational_condition.TOLERATE_KINKS) ∧
      (configure lib mu).ct_params_old = (declare_parameters lib mu).ct_params_old ∧
      (configure lib mu).ct_params_new = (declare_parameters lib mu).ct_params_new ∧
      (configure lib mu).ct_params_old.operational_params.op_condition = lib.op_condition ∧
      (configure lib mu).ct_params_new.operational_params.op_condition = lib.op_condition ∧
      (configure lib mu).op_domain_params.operational_params.op_condition =
        operational_condition.TOLERATE_KINKS ∧
      (configure lib mu).ct_params_old.operational_params = (configure lib mu).isop_params_old ∧
      (configure lib mu).ct_params_new.operational_params = (configure lib mu).isop_params_new ∧
      (configure lib mu).isop_params_new.simulation_parameters =
        { base := 3, mu_minus := mu, epsilon_r := 41 / 10, lambda_tf := 18 / 10 } ∧
      (configure lib mu).isop_params_old.simulation_parameters =
        { base := 3, mu_minus := mu, epsilon_r := 56 / 10, lambda_tf := 5 } ∧
      (configure lib mu).isop_params_old.sim_engine =
        (configure lib mu).isop_params_new.sim_engine ∧
      (configure lib mu).isop_params_old.input_bdl_iterator_params =
        lib.bdl_input_iterator_params ∧
      (configure lib mu).isop_params_new.input_bdl_iterator_params =
        lib.bdl_input_iterator_params ∧
      (configure lib mu).isop_params_old =
        { (configure lib mu).isop_params_new with
          simulation_parameters :=
            { (configure lib mu).isop_params_new.simulation_parameters with
              epsilon_r := 56 / 10, lambda_tf := 5 } } ∧
      (56 / 10 : ℚ) ≠ 41 / 10 ∧ (5 : ℚ) ≠ 18 / 10 := by
  refine ⟨rfl, rfl, fun st => ⟨rfl, rfl, rfl, rfl, rfl⟩, rfl, rfl, rfl, rfl, rfl, rfl, rfl,
    rfl, rfl, rfl, rfl, rfl, rfl, ?_, ?_⟩ <;> norm_num

end QcaStyle

namespace QcaStyle

/-! ## The claim on the Sample Cache -/

/-- C5: in a flood-fill run, for every parameter space, oracle, budget and
list of seeds, and in a run of any explorer that reaches the oracle through
the Sample Cache (contour tracing), no Point has more than one oracle call,
and the evaluated count equals the number of oracle calls and the number of
distinct Points of the returned Domain Result, so it never exceeds it. -/
theorem exploration_evaluates_each_point_once (space : List Dimension) (oracle : Oracle)
    (budget : Nat) (seeds : List Point) {σ : Type} (ex : Explorer σ) (cap : Nat) (st : σ) :
    (flood_fill space oracle budget seeds).at_most_once ∧
      (Explorer.run ex oracle cap st SampleCache.empty).at_most_once :=
  ⟨(flood_fill.loop_consistent space oracle budget _ _
      SampleCache.empty_consistent).at_most_once,
    (Explorer.run_consistent ex oracle cap st _ SampleCache.empty_consistent).at_most_once⟩

end QcaStyle

namespace QcaStyle

/-! ## The claims on the gate discovery -/

theorem push_gate_known (u : truth_table_utils) (gates : gate_list) (gate t : List Char)
    (h : t ∈ known_gate_types) :
    ∃ tts, push_gate u gates gate t = Except.ok (gates ++ [(gate, tts)]) := by
  simp only [known_gate_types, List.mem_cons, List.mem_singleton, List.not_mem_nil,
    or_false] at h
  rcases h with rfl | rfl | rfl | rfl | rfl
  · exact ⟨_, rfl⟩
  · exact ⟨_, rfl⟩
  · exact ⟨_, rfl⟩
  · exact ⟨_, rfl⟩
  · exact ⟨_, rfl⟩

theorem push_gate_unknown (u : truth_table_utils) (gates : gate_list) (gate t : List Char)
    (h : t ∉ known_gate_types) :
    push_gate u gates gate t =
      Except.error (Exception.runtime_error (unknown_gate_type ++ t)) := by
  simp only [known_gate_types, List.mem_cons, List.mem_singleton, List.not_mem_nil,
    or_false, not_or] at h
  obtain ⟨h1, h2, h3, h4, h5⟩ := h
  simp only [push_gate, h1, h2, h3, h4, h5, if_false]

/-- C8: for every directory-entry path (shorter than `npos`, as every
`std::string` is), the gate name and gate type the driver computes are the
ones the claim describes; the driver throws exactly when the path contains
".sqd" and the gate type is none of "or", "wire", "not", "wire2", "maj", and
what it throws is then the runtime error "Unknown gate type: <type>";
otherwise a path containing ".sqd" appends exactly one entry under the gate
name, and a path not containing ".sqd" leaves the gate list unchanged. -/
theorem register_gate_raises_exactly_on_unknown (u : truth_table_utils) (gates : gate_list)
    (path : List Char) (hlen : path.length < npos) :
    gate_name path = Except.ok (gate_name_text path) ∧
      gate_type_of (gate_name_text path) = Except.ok (gate_type_text path) ∧
      ((∃ e, register_gate u gates path = Except.error e) ↔
        contains_sqd path ∧ gate_type_text path ∉ known_gate_types) ∧
      (register_gate u gates path =
          Except.error (Exception.runtime_error (unknown_gate_type ++ gate_type_text path)) ↔
        contains_sqd path ∧ gate_type_text path ∉ known_gate_types) ∧
      (contains_sqd path → gate_type_text path ∈ known_gate_types →
        ∃ tts, register_gate u gates path =
          Except.ok (gates ++ [(gate_name_text path, tts)])) ∧
      (¬ contains_sqd path → register_gate u gates path = Except.ok gates) := by
  have hr := register_gate_eq u gates path hlen
  refine ⟨gate_name_eq path hlen, gate_type_of_gate_name path hlen, ?_, ?_, ?_, ?_⟩
  · constructor
    · rintro ⟨e, he⟩
      by_cases hs : sqd <:+: path
      · refine ⟨hs, fun hk => ?_⟩
        obtain ⟨tts, ht⟩ := push_gate_known u gates (gate_name_text path) _ hk
        rw [hr, if_pos hs, ht] at he
        cases he
      · rw [hr, if_neg hs] at he
        cases he
    · rintro ⟨hs, hk⟩
      have hs2 : sqd <:+: path := hs
      exact ⟨_, by rw [hr, if_pos hs2, push_gate_unknown u gates _ _ hk]⟩
  · constructor
    · intro he
      by_cases hs : sqd <:+: path
      · refine ⟨hs, fun hk => ?_⟩
        obtain ⟨tts, ht⟩ := push_gate_known u gates (gate_name_text path) _ hk
        rw [hr, if_pos hs, ht] at he
        cases he
      · rw [hr, if_neg hs] at he
        cases he
    · rintro ⟨hs, hk⟩
      have hs2 : sqd <:+: path := hs
      rw [hr, if_pos hs2, push_gate_unknown u gates _ _ hk]
  · intro hs hk
    have hs2 : sqd <:+: path := hs
    obtain ⟨tts, ht⟩ := push_gate_known u gates (gate_name_text path) _ hk
    exact ⟨tts, by rw [hr, if_pos hs2, ht]⟩
  · intro hs
    have hs2 : ¬ sqd <:+: path := hs
    rw [hr, if_neg hs2]

/-- Witness of `register_gate_raises_exactly_on_unknown`: the entry
"gates/xor_2x2.sqd" contains ".sqd" and has the unknown gate type "xor". -/
theorem register_gate_raises_exactly_on_unknown_witness :
    List.length ("gates/xor_2x2.sqd".toList) < npos ∧
      contains_sqd ("gates/xor_2x2.sqd".toList) ∧
      gate_type_text ("gates/xor_2x2.sqd".toList) = ['x', 'o', 'r'] ∧
      register_gate standard_truth_tables [] ("gates/xor_2x2.sqd".toList) =
        Except.error (Exception.runtime_error ("Unknown gate type: xor".toList)) := by
  have hlen : List.length ("gates/xor_2x2.sqd".toList) < npos := by decide
  have h := (register_gate_raises_exactly_on_unknown standard_truth_tables []
    ("gates/xor_2x2.sqd".toList) hlen).2.2.2.1
  have hc : contains_sqd ("gates/xor_2x2.sqd".toList) :=
    ⟨"gates/xor_2x2".toList, [], by decide⟩
  have ht : gate_type_text ("gates/xor_2x2.sqd".toList) = ['x', 'o', 'r'] := by decide
  refine ⟨hlen, hc, ht, ?_⟩
  have := h.mpr ⟨hc, by rw [ht]; decide⟩
  rw [ht] at this
  exact this

/-- C9: for every directory-entry path that contains ".sqd" (and is shorter
than `npos`, as every `std::string` is), the layout file name rebuilt as gate
name + ".sqd" equals the file name, the text after the last '/' or backslash,
exactly when the file name ends with ".sqd"; "or_2x2.sqd" round-trips, and
"or_2x2.sqd.bak" passes the filter but is rebuilt as "or_2x2.sqd.sqd". -/
theorem layout_file_name_round_trip :
    (∀ path : List Char, path.length < npos → find path sqd ≠ npos →
      ∃ file gate, path_file_name path = Except.ok file ∧ file = file_name_text path ∧
        gate_name path = Except.ok gate ∧
        (layout_file_name gate = file ↔ sqd <:+ file)) ∧
    (find ("or_2x2.sqd".toList) sqd ≠ npos ∧
      gate_name ("or_2x2.sqd".toList) = Except.ok ("or_2x2".toList) ∧
      layout_file_name ("or_2x2".toList) = "or_2x2.sqd".toList) ∧
    (find ("or_2x2.sqd.bak".toList) sqd ≠ npos ∧
      gate_name ("or_2x2.sqd.bak".toList) = Except.ok ("or_2x2.sqd".toList) ∧
      layout_file_name ("or_2x2.sqd".toList) = "or_2x2.sqd.sqd".toList ∧
      layout_file_name ("or_2x2.sqd".toList) ≠ "or_2x2.sqd.bak".toList) := by
  refine ⟨?_, ⟨by decide, rfl, by decide⟩, ⟨by decide, rfl, by decide, by decide⟩⟩
  intro path hlen _
  refine ⟨file_name_text path, gate_name_text path, path_file_name_eq path hlen, rfl,
    gate_name_eq path hlen, ?_⟩
  constructor
  · intro h
    exact ⟨gate_name_text path, h⟩
  · rintro ⟨t, ht⟩
    have hg : gate_name_text path = t := by
      apply gate_name_text_of_split path t ['s', 'q', 'd'] ht.symm
      decide
    rw [hg]
    exact ht

/-- Witness of `layout_file_name_round_trip`: the entry "gates/maj_3x3.sqd". -/
theorem layout_file_name_round_trip_witness :
    ∃ file gate, path_file_name ("gates/maj_3x3.sqd".toList) = Except.ok file ∧
      file = file_name_text ("gates/maj_3x3.sqd".toList) ∧
      gate_name ("gates/maj_3x3.sqd".toList) = Except.ok gate ∧
      (layout_file_name gate = file ↔ sqd <:+ file) :=
  layout_file_name_round_trip.1 ("gates/maj_3x3.sqd".toList) (by decide) (by decide)

end QcaStyle
